import Mathlib

/-!
Verification of the crawl orchestrator of `src/scrape_simple.py`
(MedReproCrawler).  The Python source is shallowly embedded below:
pure helpers become Lean functions, the stateful loops of `main`
become explicit state passing over a `CrawlState`, and the network is
abstracted into environments that map an attempt index or a URL to
its outcome.  All definitions are executable so that concrete runs
can be evaluated inside proofs.
-/

namespace MedRepro

/-! ## URLs and pages

`urllib.parse.urlparse` splits a URL into scheme, netloc (host) and
path; the scraper only ever inspects `netloc`, so a URL is modelled
by those three components. -/

structure Url where
  scheme : String
  host : String
  path : String
deriving DecidableEq

/-- The spec's notion of an origin: the identity key `(scheme, host)`. -/
def origin (u : Url) : String × String := (u.scheme, u.host)

/-- Outcome of `scrape_category_page` on a successful fetch: the
product links and pagination links extracted from the page
(`extract_product_links` plus the pagination selector loop), already
resolved to absolute URLs. -/
structure Page where
  products : List Url
  pagination : List Url
deriving DecidableEq

/-! ## Fetch-with-retry (`fetch_page_html`, lines 192-206)

One call makes up to `retries` attempts, indexed from 0.  Each
attempt either returns a 200 response with a body, a non-200 HTTP
status, or raises a transport error (`requests.exceptions.
RequestException`).  The code sleeps 5 seconds only in the `except`
branch, and only when `attempt < retries - 1`.  The attempt outcomes
are supplied by an environment `env : Nat → AttemptOutcome`. -/

inductive AttemptOutcome
  | success (body : String)
  | httpError (code : Nat)
  | transportError
deriving DecidableEq

def AttemptOutcome.isSuccess : AttemptOutcome → Bool
  | .success _ => true
  | _ => false

def AttemptOutcome.isTransport : AttemptOutcome → Bool
  | .transportError => true
  | _ => false

/-- Inner loop of `fetch_page_html`.  `r` is the number of attempts
remaining, `i` the index of the next attempt, `s` the number of
5-second pauses performed so far.  Returns (result, attempts made in
total, pauses performed).  A pause happens only after a transport
error and only when the attempt is not the last one (`r` counts the
current attempt, so more attempts remain exactly when `0 < r`). -/
def fetchGo (env : Nat → AttemptOutcome) : Nat → Nat → Nat → Option String × Nat × Nat
  | 0, i, s => (none, i, s)
  | r + 1, i, s =>
    match env i with
    | .success b => (some b, i + 1, s)
    | .httpError _ => fetchGo env r (i + 1) s
    | .transportError => fetchGo env r (i + 1) (if 0 < r then s + 1 else s)

/-- `fetch_page_html(session, url, retries=k)` with attempt outcomes
given by `env`. -/
def fetchRun (env : Nat → AttemptOutcome) (k : Nat) : Option String × Nat × Nat :=
  fetchGo env k 0 0

/-! ## Category fetch with one session refresh (lines 435-442)

When `scrape_category_page` returns no HTML (all attempts failed),
`main` calls `refresh_session` (which deletes the host's session and
re-bootstraps exactly once) and then calls `scrape_category_page` a
second time; if that also fails the page is skipped.  The second call
is a full `fetch_page_html` invocation with the same retry budget.
Result: (body, attempts in first call, bootstraps performed,
attempts in second call). -/
def fetchCategoryWithRefresh (env1 env2 : Nat → AttemptOutcome) (k : Nat) :
    Option String × Nat × Nat × Nat :=
  let r1 := fetchRun env1 k
  match r1.1 with
  | some h => (some h, r1.2.1, 0, 0)
  | none =>
    let r2 := fetchRun env2 k
    (r2.1, r1.2.1, 1, r2.2.1)

/-! ## The frontier walk (lines 418-449)

Per category, `main` keeps `pages_seen` (a set), `page_queue` (a FIFO
list seeded with the category URL) and `pages_scraped` (a counter).
`page_limit` is `None` when `--max-pages-per-category` is 0; here
`limit : Nat` with `0` meaning unbounded.  The loop:

  while page_queue:                                  -- queue nonempty
    if page_limit is not None and pages_scraped >= page_limit: break
    current = page_queue.pop(0)
    if current in pages_seen: continue
    pages_seen.add(current)
    ... fetch current (with one refresh retry) ...
    on failure: continue
    on success: enqueue pagination links not in pages_seen,
                pages_scraped += 1, scrape the products

The page fetch outcome (after the built-in refresh retry) is given
by `env : Url → Option Page`; `none` means both fetch rounds failed
and the page is skipped.  Product scraping does not influence the
queue, the seen-set or the counter, so it is omitted here (it is
modelled in full in `runCrawl` below).  `fuel` bounds the number of
loop iterations; a result with `finished = false` is a snapshot of
the loop state after `fuel` iterations, `finished = true` means the
loop exited by itself. -/

structure WalkOut where
  queue : List Url
  seen : List Url
  scraped : Nat
  fetched : List Url
  finished : Bool
deriving DecidableEq

def walk (env : Url → Option Page) (limit : Nat) :
    Nat → List Url → List Url → Nat → List Url → WalkOut
  | _, [], seen, scraped, fetched => ⟨[], seen, scraped, fetched, true⟩
  | 0, current :: rest, seen, scraped, fetched =>
    if limit ≠ 0 ∧ limit ≤ scraped then ⟨current :: rest, seen, scraped, fetched, true⟩
    else ⟨current :: rest, seen, scraped, fetched, false⟩
  | fuel + 1, current :: rest, seen, scraped, fetched =>
    if limit ≠ 0 ∧ limit ≤ scraped then ⟨current :: rest, seen, scraped, fetched, true⟩
    else if current ∈ seen then
      walk env limit fuel rest seen scraped fetched
    else
      match env current with
      | none => walk env limit fuel rest (current :: seen) scraped (fetched ++ [current])
      | some pg =>
        walk env limit fuel
          (rest ++ pg.pagination.filter (fun l => decide (l ∉ current :: seen)))
          (current :: seen) (scraped + 1) (fetched ++ [current])

/-- A finite pagination graph: the pages that exist, as an
association list.  URLs outside the graph fail to fetch. -/
def pageEnvOf (graph : List (Url × Page)) : Url → Option Page :=
  fun u => (graph.find? (fun e => decide (e.1 = u))).map (fun e => e.2)

/-- Distinct page URLs present in a graph. -/
def keysOf (graph : List (Url × Page)) : List Url :=
  (graph.map Prod.fst).dedup

/-- Number of graph pages not yet in the seen-set. -/
def unseenCount (graph : List (Url × Page)) (seen : List Url) : Nat :=
  (keysOf graph).countP (fun k => decide (k ∉ seen))

/-- Total number of pagination links over all pages of the graph. -/
def pagTotal (graph : List (Url × Page)) : Nat :=
  (graph.map (fun e => e.2.pagination.length)).sum

/-- Decreasing measure of the walk loop. -/
def walkMeasure (graph : List (Url × Page)) (queue seen : List Url) : Nat :=
  unseenCount graph seen * (1 + pagTotal graph) + queue.length

/-! ## Session store and the full run (`main`, lines 311-486)

`main` keeps `host_sessions` (a dict keyed by `urlparse(url).netloc`,
i.e. by host only — the scheme is not part of the key), the list
`all_products`, and the set `scraped_urls`.  Sessions are modelled by
their creation index: the `sid`-th bootstrap is recorded in
`bootLog`, whose `sid`-th entry is the host of the URL
`establish_session` was called with (the page the browser was pointed
at, i.e. what the session was bootstrapped for).  Every
`scrape_category_page` / `scrape_product_page` call is recorded as an
event carrying the fetched URL, the key under which the session used
was held in the store, and the session's id. -/

/-- One saved product entry (`scrape_product_page`, lines 255-261):
`market` is the host the record is attributed to, `categoryPage` the
page the product link was found on, `productUrl` the fetched URL.
The timestamp and HTML body are irrelevant to the claims. -/
structure ProductRecord where
  market : String
  categoryPage : Url
  productUrl : Url
deriving DecidableEq

inductive Ev
  | page (url : Url) (key : String) (sid : Nat)
  | product (url : Url) (key : String) (sid : Nat)
deriving DecidableEq

def Ev.url : Ev → Url
  | .page u _ _ => u
  | .product u _ _ => u

def Ev.key : Ev → String
  | .page _ k _ => k
  | .product _ k _ => k

def Ev.sid : Ev → Nat
  | .page _ _ s => s
  | .product _ _ s => s

structure CrawlState where
  hostSessions : List (String × Nat)
  bootLog : List String
  events : List Ev
  allProducts : List ProductRecord
  scrapedUrls : List Url
deriving DecidableEq

def initState : CrawlState := ⟨[], [], [], [], []⟩

/-- Dictionary lookup in `host_sessions`. -/
def lookupHost : List (String × Nat) → String → Option Nat
  | [], _ => none
  | (h, s) :: rest, k => if h = k then some s else lookupHost rest k

/-- `establish_session(target_url, reason)` (lines 350-389): return
the stored session for the target's host if present, otherwise drive
the browser to `target_url`, collect cookies, build a fresh session
and store it keyed by the host. -/
def establish_session (st : CrawlState) (target : Url) : Nat × CrawlState :=
  match lookupHost st.hostSessions target.host with
  | some sid => (sid, st)
  | none =>
    let sid := st.bootLog.length
    (sid, { st with
              hostSessions := (target.host, sid) :: st.hostSessions,
              bootLog := st.bootLog ++ [target.host] })

/-- `refresh_session(target_url, reason)` (lines 391-396): delete the
host's stored session, then `establish_session` (which now always
re-bootstraps). -/
def refresh_session (st : CrawlState) (target : Url) : Nat × CrawlState :=
  establish_session
    { st with hostSessions := st.hostSessions.filter (fun p => decide (p.1 ≠ target.host)) }
    target

/-- Network environment of a run: `page1 u` is the outcome of the
first `scrape_category_page` call on `u`, `page2 u` the outcome of
the call after a session refresh, `prod u` the outcome of
`scrape_product_page` on `u`. -/
structure Env where
  page1 : Url → Option Page
  page2 : Url → Option Page
  prod : Url → Option String

/-- Append one fetch event to the trace. -/
def logEvent (st : CrawlState) (e : Ev) : CrawlState :=
  { st with events := st.events ++ [e] }

/-- Fetch one product page with a chosen session (`scrape_product_page`
plus lines 473-478): log the fetch, and on success append a
ProductRecord attributed to `phost` and mark the URL scraped.  `key`
is the store key the session `sid` was obtained under. -/
def recordProduct (E : Env) (current purl : Url) (phost key : String) (sid : Nat)
    (st : CrawlState) : CrawlState :=
  let st2 := logEvent st (Ev.product purl key sid)
  match E.prod purl with
  | some _ =>
    { st2 with
        allProducts := st2.allProducts ++ [⟨phost, current, purl⟩],
        scrapedUrls := st2.scrapedUrls ++ [purl] }
  | none => st2

/-- Handle one product link (lines 466-478): resolve the product's
host (falling back to `market` when the URL has no host à la
`netloc or market_name`), pick the stored session for that host or
bootstrap one for the product URL, then fetch. -/
def productStep (E : Env) (market : String) (current purl : Url) (st : CrawlState) : CrawlState :=
  let phost := if purl.host = "" then market else purl.host
  match lookupHost st.hostSessions phost with
  | some sid => recordProduct E current purl phost phost sid st
  | none =>
    let es := establish_session st purl
    recordProduct E current purl phost purl.host es.1 es.2

/-- The product loop (lines 455-483) over the deduplicated product
links of one page.  For each link: skip if already scraped; stop if
the `--max-products` cap (0 = unlimited) is reached; otherwise
process it with `productStep`. -/
def scrapeProducts (E : Env) (maxProducts : Nat) (market : String) (current : Url) :
    List Url → CrawlState → CrawlState
  | [], st => st
  | purl :: rest, st =>
    if purl ∈ st.scrapedUrls then
      scrapeProducts E maxProducts market current rest st
    else if maxProducts ≠ 0 ∧ maxProducts ≤ st.allProducts.length then st
    else
      scrapeProducts E maxProducts market current rest (productStep E market current purl st)

/-- Successful page processing (lines 444-483): enqueue unseen
pagination links, then run the product loop over the deduplicated
product links (`set(product_links)` at line 451). -/
def processPage (E : Env) (maxProducts : Nat) (market : String) (current : Url)
    (rest seen' : List Url) (pg : Page) (st : CrawlState) : List Url × CrawlState :=
  (rest ++ pg.pagination.filter (fun l => decide (l ∉ seen')),
   scrapeProducts E maxProducts market current pg.products.dedup st)

/-- The per-category page loop (lines 418-483), now with sessions,
events and products.  Structure as in `walk`; additionally each page
fetch uses `host_sessions.get(market) or session` (the category-level
`session` variable is `sessionVar`), and a failed first fetch
triggers `refresh_session(current)` plus a second fetch. -/
def categoryLoop (E : Env) (limit maxProducts : Nat) (market : String) (sessionVar : Nat) :
    Nat → List Url → List Url → Nat → CrawlState → CrawlState × Bool
  | _, [], _, _, st => (st, true)
  | 0, _ :: _, _, scraped, st =>
    if limit ≠ 0 ∧ limit ≤ scraped then (st, true) else (st, false)
  | fuel + 1, current :: rest, seen, scraped, st =>
    if limit ≠ 0 ∧ limit ≤ scraped then (st, true)
    else if current ∈ seen then
      categoryLoop E limit maxProducts market sessionVar fuel rest seen scraped st
    else
      let seen' := current :: seen
      let st1 := logEvent st
        (Ev.page current market ((lookupHost st.hostSessions market).getD sessionVar))
      match E.page1 current with
      | some pg =>
        let pr := processPage E maxProducts market current rest seen' pg st1
        categoryLoop E limit maxProducts market sessionVar fuel pr.1 seen' (scraped + 1) pr.2
      | none =>
        let rs := refresh_session st1 current
        let st2 := logEvent rs.2 (Ev.page current current.host rs.1)
        match E.page2 current with
        | some pg =>
          let pr := processPage E maxProducts market current rest seen' pg st2
          categoryLoop E limit maxProducts market sessionVar fuel pr.1 seen' (scraped + 1) pr.2
        | none =>
          categoryLoop E limit maxProducts market sessionVar fuel rest seen' scraped st2

/-- Category-session acquisition (lines 408-414): reuse the stored
session for the category's host, or bootstrap one. -/
def getOrEstablish (st : CrawlState) (u : Url) : Nat × CrawlState :=
  match lookupHost st.hostSessions u.host with
  | some sid => (sid, st)
  | none => establish_session st u

/-- The category loop (lines 398-486): per category, obtain or
bootstrap the session for the category's host, walk its pages, then
stop everything once the product cap is reached. -/
def runCrawl (E : Env) (limit maxProducts fuel : Nat) : List Url → CrawlState → CrawlState × Bool
  | [], st => (st, true)
  | cat :: rest, st =>
    let es := getOrEstablish st cat
    let r := categoryLoop E limit maxProducts cat.host es.1 fuel [cat] [] 0 es.2
    if r.2 = false then (r.1, false)
    else if maxProducts ≠ 0 ∧ maxProducts ≤ r.1.allProducts.length then (r.1, true)
    else runCrawl E limit maxProducts fuel rest r.1

def runMain (E : Env) (limit maxProducts fuel : Nat) (cats : List Url) : CrawlState × Bool :=
  runCrawl E limit maxProducts fuel cats initState

/-! ## Termination behaviour of `main` (lines 398-522)

How the accumulated products reach `save_products_html`:

* normal completion — the end of the `try` block saves
  `all_products` once (line 493);
* `except KeyboardInterrupt` (lines 499-503) — saves `all_products`
  once, but only `if all_products:` is non-empty;
* `except Exception` (lines 505-508) — prints the traceback and does
  NOT save; the `finally` block only closes the browser.

`mainSaves outcome acc` is the list of accumulator snapshots passed
to the Result Sink when the run terminates with `outcome` while the
accumulator holds `acc`. -/

inductive RunOutcome
  | completed
  | interrupted
  | fatal
deriving DecidableEq

def mainSaves : RunOutcome → List ProductRecord → List (List ProductRecord)
  | .completed, acc => [acc]
  | .interrupted, acc => if acc.isEmpty then [] else [acc]
  | .fatal, _ => []

/-! ## Lemmas about `fetchGo` -/

lemma fetchGo_attempts_ge (env : Nat → AttemptOutcome) :
    ∀ r i s, i ≤ (fetchGo env r i s).2.1 := by
  intro r
  induction r with
  | zero => intro i s; simp [fetchGo]
  | succ r ih =>
    intro i s
    simp only [fetchGo]
    cases h : env i with
    | success b => simp
    | httpError c => exact le_trans (Nat.le_succ i) (ih (i + 1) s)
    | transportError => exact le_trans (Nat.le_succ i) (ih (i + 1) _)

lemma fetchGo_all_fail (env : Nat → AttemptOutcome) :
    ∀ r i s, (∀ j, i ≤ j → j < i + r → (env j).isSuccess = false) →
      (fetchGo env r i s).1 = none ∧ (fetchGo env r i s).2.1 = i + r := by
  intro r
  induction r with
  | zero => intro i s _; simp [fetchGo]
  | succ r ih =>
    intro i s hf
    simp only [fetchGo]
    cases h : env i with
    | success b =>
      have := hf i le_rfl (by omega)
      rw [h] at this
      simp [AttemptOutcome.isSuccess] at this
    | httpError c =>
      obtain ⟨ha, hb⟩ := ih (i + 1) s (fun j h1 h2 => hf j (by omega) (by omega))
      exact ⟨ha, by rw [hb]; omega⟩
    | transportError =>
      obtain ⟨ha, hb⟩ := ih (i + 1) (if 0 < r then s + 1 else s)
        (fun j h1 h2 => hf j (by omega) (by omega))
      exact ⟨ha, by rw [hb]; omega⟩

lemma fetchGo_success (env : Nat → AttemptOutcome) :
    ∀ r i s j b, i ≤ j → j < i + r →
      (∀ j2, i ≤ j2 → j2 < j → (env j2).isSuccess = false) →
      env j = .success b →
      (fetchGo env r i s).1 = some b ∧ (fetchGo env r i s).2.1 = j + 1 := by
  intro r
  induction r with
  | zero => intro i s j b h1 h2 _ _; omega
  | succ r ih =>
    intro i s j b h1 h2 hf hj
    simp only [fetchGo]
    rcases Nat.eq_or_lt_of_le h1 with heq | hlt
    · subst heq; rw [hj]; simp
    · have hnot := hf i le_rfl hlt
      cases h : env i with
      | success b2 => rw [h] at hnot; simp [AttemptOutcome.isSuccess] at hnot
      | httpError c =>
        exact ih (i + 1) s j b (by omega) (by omega) (fun j2 ha hb => hf j2 (by omega) hb) hj
      | transportError =>
        exact ih (i + 1) _ j b (by omega) (by omega) (fun j2 ha hb => hf j2 (by omega) hb) hj

/-- C3: for every retry count `k`, if every attempt fails (non-200
status or transport error), `fetch_page_html` makes exactly `k`
attempts and returns `None`; and if attempt `j < k` is the first one
to return HTTP 200, its body is returned after exactly `j + 1`
attempts (no further attempts are made). -/
theorem c3_retry_budget (env : Nat → AttemptOutcome) (k : Nat) :
    ((∀ i, i < k → (env i).isSuccess = false) →
      (fetchRun env k).1 = none ∧ (fetchRun env k).2.1 = k) ∧
    (∀ j b, j < k → (∀ i, i < j → (env i).isSuccess = false) → env j = .success b →
      (fetchRun env k).1 = some b ∧ (fetchRun env k).2.1 = j + 1) := by
  constructor
  · intro hf
    have := fetchGo_all_fail env k 0 0 (fun j _ h2 => hf j (by omega))
    simpa [fetchRun] using this
  · intro j b hj hf hx
    have := fetchGo_success env k 0 0 j b (Nat.zero_le j) (by omega)
      (fun j2 _ h2 => hf j2 h2) hx
    simpa [fetchRun] using this

/-- Witness for C3: with three attempts that all return HTTP 403,
`fetch_page_html` returns `None` after exactly 3 attempts. -/
theorem c3_retry_budget_witness :
    (fetchRun (fun _ => AttemptOutcome.httpError 403) 3).1 = none ∧
    (fetchRun (fun _ => AttemptOutcome.httpError 403) 3).2.1 = 3 :=
  (c3_retry_budget (fun _ => AttemptOutcome.httpError 403) 3).1 (fun _ _ => rfl)

/-- C7 counterexample: a fetch with retry count 2 whose two attempts
both fail with HTTP 403 performs zero pauses — there is a pair of
consecutive failed attempts with no delay between them, because
`time.sleep(5)` is only reached in the `except` branch (transport
errors), not after a non-200 status. -/
theorem c7_counterexample :
    (fetchRun (fun _ => AttemptOutcome.httpError 403) 2).1 = none ∧
    (fetchRun (fun _ => AttemptOutcome.httpError 403) 2).2.1 = 2 ∧
    (fetchRun (fun _ => AttemptOutcome.httpError 403) 2).2.2 = 0 := by
  decide

lemma fetchGo_sleeps (env : Nat → AttemptOutcome) (k : Nat) :
    ∀ r i s, i + r = k →
      (fetchGo env r i s).2.2 =
        s + ((List.range' i ((fetchGo env r i s).2.1 - i)).filter
              (fun j => (env j).isTransport && decide (j + 1 < k))).length := by
  intro r
  induction r with
  | zero => intro i s hk; simp [fetchGo]
  | succ r ih =>
    intro i s hk
    simp only [fetchGo]
    cases h : env i with
    | success b =>
      have h1 : i + 1 - i = 1 := by omega
      simp [h1, List.range'_succ, h, AttemptOutcome.isTransport]
    | httpError c =>
      have hge := fetchGo_attempts_ge env r (i + 1) s
      have heq : (fetchGo env r (i + 1) s).2.1 - i =
          ((fetchGo env r (i + 1) s).2.1 - (i + 1)) + 1 := by omega
      rw [ih (i + 1) s (by omega), heq, List.range'_succ, List.filter_cons, h]
      simp [AttemptOutcome.isTransport]
    | transportError =>
      have hge := fetchGo_attempts_ge env r (i + 1) (if 0 < r then s + 1 else s)
      have heq : (fetchGo env r (i + 1) (if 0 < r then s + 1 else s)).2.1 - i =
          ((fetchGo env r (i + 1) (if 0 < r then s + 1 else s)).2.1 - (i + 1)) + 1 := by omega
      rw [ih (i + 1) _ (by omega), heq, List.range'_succ, List.filter_cons, h]
      by_cases hr : 0 < r
      · have hd : decide (i + 1 < k) = true := by simp; omega
        rw [if_pos hr]
        simp [AttemptOutcome.isTransport, hd]
        omega
      · have hd : decide (i + 1 < k) = false := by simp; omega
        rw [if_neg hr]
        simp [AttemptOutcome.isTransport, hd]

/-- C7 amended: the fixed 5-second pause occurs only after
transport-level failures that are not the final attempt; a non-200
HTTP status leads straight to the next attempt with no delay.  The
number of pauses equals the number of attempted indices whose
outcome was a transport error, excluding the last possible
attempt. -/
theorem c7_fixed_delay_only_on_transport (env : Nat → AttemptOutcome) (k : Nat) :
    (fetchRun env k).2.2 =
      ((List.range (fetchRun env k).2.1).filter
        (fun j => (env j).isTransport && decide (j + 1 < k))).length := by
  have := fetchGo_sleeps env k k 0 0 (by omega)
  simpa [fetchRun, List.range_eq_range'] using this

/-- C4 counterexample: with `fetch_retry_count = 3` and every
attempt failing (HTTP 403), the failed category fetch triggers one
session refresh followed by a full second `fetch_page_html` call of
3 further attempts — not exactly one additional attempt. -/
theorem c4_counterexample :
    fetchCategoryWithRefresh (fun _ => AttemptOutcome.httpError 403)
      (fun _ => AttemptOutcome.httpError 403) 3 = (none, 3, 1, 3) ∧ (3 : Nat) ≠ 1 := by
  decide

/-- C4 amended: when the first category fetch fails for all
`fetch_retry_count = k` attempts, the session is invalidated and
re-bootstrapped exactly once and exactly one additional
`fetch_page_html` call is made; that call itself issues up to `k`
attempts (exactly `k` when they all fail), after which the page is
abandoned with no document. -/
theorem c4_refresh_single_retry_call (env1 env2 : Nat → AttemptOutcome) (k : Nat)
    (hfail : ∀ i, i < k → (env1 i).isSuccess = false) :
    (fetchCategoryWithRefresh env1 env2 k).2.2.1 = 1 ∧
    (fetchCategoryWithRefresh env1 env2 k).2.1 = k ∧
    (fetchCategoryWithRefresh env1 env2 k).2.2.2 = (fetchRun env2 k).2.1 ∧
    ((∀ i, i < k → (env2 i).isSuccess = false) →
      (fetchCategoryWithRefresh env1 env2 k).1 = none ∧
      (fetchCategoryWithRefresh env1 env2 k).2.2.2 = k) := by
  have h1 := (c3_retry_budget env1 k).1 hfail
  have hcw : fetchCategoryWithRefresh env1 env2 k =
      ((fetchRun env2 k).1, (fetchRun env1 k).2.1, 1, (fetchRun env2 k).2.1) := by
    simp only [fetchCategoryWithRefresh, h1.1]
  refine ⟨by rw [hcw], by rw [hcw]; exact h1.2, by rw [hcw], ?_⟩
  intro hfail2
  have h2 := (c3_retry_budget env2 k).1 hfail2
  rw [hcw]
  exact ⟨h2.1, h2.2⟩

/-- Witness for C4 amended: retry count 3, all attempts fail with
HTTP 403: the first call makes 3 attempts, one re-bootstrap occurs,
and the single retry call makes 3 further attempts before the page
is abandoned. -/
theorem c4_refresh_single_retry_call_witness :
    (fetchCategoryWithRefresh (fun _ => AttemptOutcome.httpError 403)
        (fun _ => AttemptOutcome.httpError 403) 3).2.2.1 = 1 ∧
    (fetchCategoryWithRefresh (fun _ => AttemptOutcome.httpError 403)
        (fun _ => AttemptOutcome.httpError 403) 3).2.1 = 3 ∧
    (fetchCategoryWithRefresh (fun _ => AttemptOutcome.httpError 403)
        (fun _ => AttemptOutcome.httpError 403) 3).1 = none := by
  have h := c4_refresh_single_retry_call (fun _ => AttemptOutcome.httpError 403)
    (fun _ => AttemptOutcome.httpError 403) 3 (fun _ _ => rfl)
  exact ⟨h.1, h.2.1, (h.2.2.2 (fun _ _ => rfl)).1⟩

/-! ## Lemmas about the frontier walk -/

lemma nodup_concat {α : Type} [DecidableEq α] {l : List α} {a : α}
    (h : l.Nodup) (ha : a ∉ l) : (l ++ [a]).Nodup := by
  simp [List.nodup_append, h, ha]

/-- The walk preserves: the fetched trace has no duplicates, every
fetched page is in the seen-set, the scraped counter counts exactly
the successfully fetched pages, and (when a limit is set) the
counter never exceeds the limit. -/
lemma walk_inv (env : Url → Option Page) (limit : Nat) :
    ∀ fuel queue seen scraped fetched,
      fetched.Nodup →
      (∀ u ∈ fetched, u ∈ seen) →
      scraped = fetched.countP (fun u => (env u).isSome) →
      (limit ≠ 0 → scraped ≤ limit) →
      (walk env limit fuel queue seen scraped fetched).fetched.Nodup ∧
      (∀ u ∈ (walk env limit fuel queue seen scraped fetched).fetched,
        u ∈ (walk env limit fuel queue seen scraped fetched).seen) ∧
      (walk env limit fuel queue seen scraped fetched).scraped =
        (walk env limit fuel queue seen scraped fetched).fetched.countP
          (fun u => (env u).isSome) ∧
      (limit ≠ 0 → (walk env limit fuel queue seen scraped fetched).scraped ≤ limit) := by
  intro fuel
  induction fuel with
  | zero =>
    intro queue seen scraped fetched h1 h2 h3 h4
    cases queue with
    | nil => exact ⟨h1, h2, h3, h4⟩
    | cons current rest =>
      simp only [walk]
      by_cases hl : limit ≠ 0 ∧ limit ≤ scraped
      · rw [if_pos hl]; exact ⟨h1, h2, h3, h4⟩
      · rw [if_neg hl]; exact ⟨h1, h2, h3, h4⟩
  | succ fuel ih =>
    intro queue seen scraped fetched h1 h2 h3 h4
    cases queue with
    | nil => exact ⟨h1, h2, h3, h4⟩
    | cons current rest =>
      simp only [walk]
      by_cases hl : limit ≠ 0 ∧ limit ≤ scraped
      · rw [if_pos hl]; exact ⟨h1, h2, h3, h4⟩
      · rw [if_neg hl]
        by_cases hs : current ∈ seen
        · rw [if_pos hs]
          exact ih rest seen scraped fetched h1 h2 h3 h4
        · rw [if_neg hs]
          have hcf : current ∉ fetched := fun hc => hs (h2 current hc)
          have h2' : ∀ u ∈ fetched ++ [current], u ∈ current :: seen := by
            intro u hu
            rcases List.mem_append.mp hu with hu | hu
            · exact List.mem_cons_of_mem _ (h2 u hu)
            · simp at hu; subst hu; exact List.mem_cons_self _ _
          cases he : env current with
          | none =>
            apply ih
            · exact nodup_concat h1 hcf
            · exact h2'
            · rw [List.countP_append, h3]
              simp [List.countP_cons, he]
            · exact h4
          | some pg =>
            apply ih
            · exact nodup_concat h1 hcf
            · exact h2'
            · rw [List.countP_append, h3]
              simp [List.countP_cons, he]
            · intro hne
              have := h4
              omega

/-- C9 counterexample: a category page whose pagination selector
matched the same link twice.  After processing the seed page the
frontier queue holds that URL as two pending entries, violating
enqueue-at-most-once set semantics: links are only checked against
`pages_seen` at enqueue time, and enqueued URLs are not added to
`pages_seen` until dequeued. -/
theorem c9_counterexample :
    (walk (fun u => if u = ⟨"http", "m", "/a"⟩ then some ⟨[], [⟨"http", "m", "/p"⟩, ⟨"http", "m", "/p"⟩]⟩ else none)
        0 1 [⟨"http", "m", "/a"⟩] [] 0 []).queue = [⟨"http", "m", "/p"⟩, ⟨"http", "m", "/p"⟩] ∧
    ¬ (walk (fun u => if u = ⟨"http", "m", "/a"⟩ then some ⟨[], [⟨"http", "m", "/p"⟩, ⟨"http", "m", "/p"⟩]⟩ else none)
        0 1 [⟨"http", "m", "/a"⟩] [] 0 []).queue.Nodup := by
  decide

/-- C9 amended: the frontier queue does not have set semantics — the
same URL can be pending twice (it is only checked against the
seen-set, which records dequeued pages, not enqueued ones) — but the
seen-set check at dequeue time still guarantees that no page URL is
fetched more than once within one category walk. -/
theorem c9_no_url_fetched_twice (env : Url → Option Page) (limit fuel : Nat) (seed : Url) :
    (walk env limit fuel [seed] [] 0 []).fetched.Nodup :=
  (walk_inv env limit fuel [seed] [] 0 [] (by simp) (by simp) (by simp) (fun _ => Nat.zero_le _)).1

/-- C10: every dequeued page URL enters the seen-set before its
fetch is attempted — every fetched URL is in the final seen-set and
the fetched trace holds no URL twice, so a page whose fetch fails
(even after the refresh retry) is permanently marked visited and is
never fetched again within that category, even when rediscovered via
a later pagination link; and failed pages do not count toward the
per-category page limit: the scraped counter counts exactly the
successfully fetched pages. -/
theorem c10_failed_pages_marked_seen (env : Url → Option Page) (limit fuel : Nat) (seed : Url) :
    (walk env limit fuel [seed] [] 0 []).fetched.Nodup ∧
    (∀ u ∈ (walk env limit fuel [seed] [] 0 []).fetched,
      u ∈ (walk env limit fuel [seed] [] 0 []).seen) ∧
    (walk env limit fuel [seed] [] 0 []).scraped =
      (walk env limit fuel [seed] [] 0 []).fetched.countP (fun u => (env u).isSome) := by
  have h := walk_inv env limit fuel [seed] [] 0 [] (by simp) (by simp) (by simp)
    (fun _ => Nat.zero_le _)
  exact ⟨h.1, h.2.1, h.2.2.1⟩

/-- Witness for C10 at a concrete cyclic two-page graph with one
failing page. -/
theorem c10_failed_pages_marked_seen_witness :
    (walk (fun u => if u = ⟨"http", "w", "/1"⟩ then some ⟨[], [⟨"http", "w", "/2"⟩, ⟨"http", "w", "/1"⟩]⟩ else none)
        0 9 [⟨"http", "w", "/1"⟩] [] 0 []).fetched.Nodup ∧
    (∀ u ∈ (walk (fun u => if u = ⟨"http", "w", "/1"⟩ then some ⟨[], [⟨"http", "w", "/2"⟩, ⟨"http", "w", "/1"⟩]⟩ else none)
        0 9 [⟨"http", "w", "/1"⟩] [] 0 []).fetched,
      u ∈ (walk (fun u => if u = ⟨"http", "w", "/1"⟩ then some ⟨[], [⟨"http", "w", "/2"⟩, ⟨"http", "w", "/1"⟩]⟩ else none)
        0 9 [⟨"http", "w", "/1"⟩] [] 0 []).seen) ∧
    (walk (fun u => if u = ⟨"http", "w", "/1"⟩ then some ⟨[], [⟨"http", "w", "/2"⟩, ⟨"http", "w", "/1"⟩]⟩ else none)
        0 9 [⟨"http", "w", "/1"⟩] [] 0 []).scraped =
      (walk (fun u => if u = ⟨"http", "w", "/1"⟩ then some ⟨[], [⟨"http", "w", "/2"⟩, ⟨"http", "w", "/1"⟩]⟩ else none)
        0 9 [⟨"http", "w", "/1"⟩] [] 0 []).fetched.countP
        (fun u => ((fun u => if u = ⟨"http", "w", "/1"⟩ then some (⟨[], [⟨"http", "w", "/2"⟩, ⟨"http", "w", "/1"⟩]⟩ : Page) else none) u).isSome) :=
  c10_failed_pages_marked_seen
    (fun u => if u = ⟨"http", "w", "/1"⟩ then some ⟨[], [⟨"http", "w", "/2"⟩, ⟨"http", "w", "/1"⟩]⟩ else none)
    0 9 ⟨"http", "w", "/1"⟩

/-! ## Termination of the frontier walk -/

lemma pageEnvOf_some {graph : List (Url × Page)} {u : Url} {pg : Page}
    (h : pageEnvOf graph u = some pg) :
    u ∈ keysOf graph ∧ pg.pagination.length ≤ pagTotal graph := by
  unfold pageEnvOf at h
  cases hf : graph.find? (fun e => decide (e.1 = u)) with
  | none => rw [hf] at h; simp at h
  | some e =>
    rw [hf] at h
    simp at h
    have hmem : e ∈ graph := List.mem_of_find?_eq_some hf
    have hpred := List.find?_some hf
    have he1 : e.1 = u := by simpa using hpred
    constructor
    · unfold keysOf
      rw [List.mem_dedup]
      exact he1 ▸ List.mem_map_of_mem Prod.fst hmem
    · have : pg.pagination.length ∈ graph.map (fun e => e.2.pagination.length) := by
        rw [← h]
        exact List.mem_map_of_mem _ hmem
      exact List.single_le_sum (fun y _ => Nat.zero_le y) _ this

lemma unseenCount_mono (graph : List (Url × Page)) (seen : List Url) (x : Url) :
    unseenCount graph (x :: seen) ≤ unseenCount graph seen := by
  unfold unseenCount
  apply List.countP_mono_left
  intro a _ ha
  simp at ha ⊢
  exact ha.2

lemma countP_lt_of {α : Type} (p q : α → Bool) :
    ∀ l : List α, (∀ a ∈ l, p a = true → q a = true) →
      ∀ x, x ∈ l → p x = false → q x = true →
      l.countP p < l.countP q := by
  intro l
  induction l with
  | nil => intro _ x hx; cases hx
  | cons a l ih =>
    intro himp x hx hpx hqx
    simp only [List.countP_cons]
    have hmono : l.countP p ≤ l.countP q :=
      List.countP_mono_left (fun b hb => himp b (List.mem_cons_of_mem _ hb))
    rcases List.mem_cons.mp hx with rfl | ha
    · rw [hpx, hqx]
      simp
      omega
    · have hlt := ih (fun b hb => himp b (List.mem_cons_of_mem _ hb)) x ha hpx hqx
      have : (if p a = true then 1 else 0) ≤ (if q a = true then 1 else 0) := by
        by_cases hc : p a = true
        · rw [if_pos hc, if_pos (himp a (List.mem_cons_self _ _) hc)]
        · rw [if_neg hc]
          split <;> omega
      omega

lemma unseenCount_strict (graph : List (Url × Page)) (seen : List Url) (x : Url)
    (hx : x ∈ keysOf graph) (hns : x ∉ seen) :
    unseenCount graph (x :: seen) < unseenCount graph seen := by
  apply countP_lt_of _ _ (keysOf graph) _ x hx
  · simp
  · simpa using hns
  · intro a _ hpa
    simp at hpa ⊢
    exact hpa.2

/-- With fuel exceeding the walk measure, the loop runs to
completion. -/
lemma walk_terminates (graph : List (Url × Page)) (limit : Nat) :
    ∀ fuel queue seen scraped fetched,
      walkMeasure graph queue seen < fuel →
      (walk (pageEnvOf graph) limit fuel queue seen scraped fetched).finished = true := by
  intro fuel
  induction fuel with
  | zero => intro queue seen scraped fetched h; omega
  | succ fuel ih =>
    intro queue seen scraped fetched hm
    cases queue with
    | nil => rfl
    | cons current rest =>
      simp only [walk]
      by_cases hl : limit ≠ 0 ∧ limit ≤ scraped
      · rw [if_pos hl]
      · rw [if_neg hl]
        unfold walkMeasure at hm
        by_cases hs : current ∈ seen
        · rw [if_pos hs]
          apply ih
          unfold walkMeasure
          simp only [List.length_cons] at hm
          omega
        · rw [if_neg hs]
          cases he : pageEnvOf graph current with
          | none =>
            apply ih
            unfold walkMeasure
            have hmono := unseenCount_mono graph seen current
            have h1 : unseenCount graph (current :: seen) * (1 + pagTotal graph) ≤
                unseenCount graph seen * (1 + pagTotal graph) :=
              Nat.mul_le_mul_right _ hmono
            simp only [List.length_cons] at hm
            omega
          | some pg =>
            apply ih
            unfold walkMeasure
            obtain ⟨hkey, hpag⟩ := pageEnvOf_some he
            have hstrict := unseenCount_strict graph seen current hkey hs
            obtain ⟨v, hv⟩ : ∃ v, unseenCount graph seen = v + 1 :=
              ⟨unseenCount graph seen - 1, by omega⟩
            have huv : unseenCount graph (current :: seen) ≤ v := by omega
            have h1 : unseenCount graph (current :: seen) * (1 + pagTotal graph) ≤
                v * (1 + pagTotal graph) :=
              Nat.mul_le_mul_right _ huv
            have h2 : (v + 1) * (1 + pagTotal graph) =
                v * (1 + pagTotal graph) + (1 + pagTotal graph) := by ring
            have h3 : (pg.pagination.filter
                (fun l => decide (l ∉ current :: seen))).length ≤ pg.pagination.length :=
              List.length_filter_le _ _
            rw [hv] at hm
            simp only [List.length_cons, List.length_append] at hm ⊢
            omega

/-- C8 counterexample: with `page_limit = 2` and a pagination graph
where the first page links to two dead pages and one live one, the
walker fetches 4 pages — `pages_scraped` only counts successful
fetches, so the number of fetched pages exceeds the page limit. -/
theorem c8_counterexample :
    (walk (pageEnvOf [(⟨"http", "m", "/a"⟩, ⟨[], [⟨"http", "m", "/b"⟩, ⟨"http", "m", "/c"⟩, ⟨"http", "m", "/d"⟩]⟩), (⟨"http", "m", "/d"⟩, ⟨[], []⟩)])
        2 10 [⟨"http", "m", "/a"⟩] [] 0 []).finished = true ∧
    (walk (pageEnvOf [(⟨"http", "m", "/a"⟩, ⟨[], [⟨"http", "m", "/b"⟩, ⟨"http", "m", "/c"⟩, ⟨"http", "m", "/d"⟩]⟩), (⟨"http", "m", "/d"⟩, ⟨[], []⟩)])
        2 10 [⟨"http", "m", "/a"⟩] [] 0 []).scraped = 2 ∧
    (walk (pageEnvOf [(⟨"http", "m", "/a"⟩, ⟨[], [⟨"http", "m", "/b"⟩, ⟨"http", "m", "/c"⟩, ⟨"http", "m", "/d"⟩]⟩), (⟨"http", "m", "/d"⟩, ⟨[], []⟩)])
        2 10 [⟨"http", "m", "/a"⟩] [] 0 []).fetched.length = 4 ∧
    ¬ (walk (pageEnvOf [(⟨"http", "m", "/a"⟩, ⟨[], [⟨"http", "m", "/b"⟩, ⟨"http", "m", "/c"⟩, ⟨"http", "m", "/d"⟩]⟩), (⟨"http", "m", "/d"⟩, ⟨[], []⟩)])
        2 10 [⟨"http", "m", "/a"⟩] [] 0 []).fetched.length ≤ 2 := by
  decide

/-- C8 amended: for every finite pagination graph and every
`page_limit > 0`, the walker *successfully scrapes* at most
`page_limit` pages and the walk terminates (pages whose fetch fails
do not count toward the limit, so the number of fetch attempts can
exceed it); for `page_limit = 0` the walk still terminates on any
finite graph, cycles included, because the seen-set collapses
revisits. -/
theorem c8_walk_bounded_and_terminates (graph : List (Url × Page)) (limit : Nat) (seed : Url) :
    (∀ fuel, limit ≠ 0 →
      (walk (pageEnvOf graph) limit fuel [seed] [] 0 []).scraped ≤ limit) ∧
    (∃ fuel, (walk (pageEnvOf graph) limit fuel [seed] [] 0 []).finished = true) := by
  constructor
  · intro fuel hl
    exact (walk_inv (pageEnvOf graph) limit fuel [seed] [] 0 []
      (by simp) (by simp) (by simp) (fun _ => Nat.zero_le _)).2.2.2 hl
  · exact ⟨walkMeasure graph [seed] [] + 1,
      walk_terminates graph limit _ [seed] [] 0 [] (Nat.lt_succ_self _)⟩

/-- Witness for C8 amended, at the graph of the counterexample:
with limit 2 the walker finishes and scrapes exactly 2 ≤ 2 pages. -/
theorem c8_walk_bounded_and_terminates_witness :
    (walk (pageEnvOf [(⟨"http", "m", "/a"⟩, ⟨[], [⟨"http", "m", "/b"⟩, ⟨"http", "m", "/c"⟩, ⟨"http", "m", "/d"⟩]⟩), (⟨"http", "m", "/d"⟩, ⟨[], []⟩)])
        2 10 [⟨"http", "m", "/a"⟩] [] 0 []).scraped ≤ 2 ∧
    (∃ fuel, (walk (pageEnvOf [(⟨"http", "m", "/a"⟩, ⟨[], [⟨"http", "m", "/b"⟩, ⟨"http", "m", "/c"⟩, ⟨"http", "m", "/d"⟩]⟩), (⟨"http", "m", "/d"⟩, ⟨[], []⟩)])
        2 fuel [⟨"http", "m", "/a"⟩] [] 0 []).finished = true) := by
  have h := c8_walk_bounded_and_terminates
    [(⟨"http", "m", "/a"⟩, ⟨[], [⟨"http", "m", "/b"⟩, ⟨"http", "m", "/c"⟩, ⟨"http", "m", "/d"⟩]⟩), (⟨"http", "m", "/d"⟩, ⟨[], []⟩)]
    2 ⟨"http", "m", "/a"⟩
  exact ⟨h.1 10 (by decide), h.2⟩

/-! ## The session store (C6, C1) -/

lemma lookupHost_mem : ∀ (l : List (String × Nat)) (k : String) (s : Nat),
    lookupHost l k = some s → (k, s) ∈ l := by
  intro l
  induction l with
  | nil => intro k s h; simp [lookupHost] at h
  | cons p rest ih =>
    intro k s h
    obtain ⟨ph, ps⟩ := p
    simp only [lookupHost] at h
    by_cases he : ph = k
    · rw [if_pos he] at h
      subst he
      simp at h
      subst h
      exact List.mem_cons_self _ _
    · rw [if_neg he] at h
      exact List.mem_cons_of_mem _ (ih k s h)

lemma lookupHost_none : ∀ (l : List (String × Nat)) (k : String),
    lookupHost l k = none → k ∉ l.map Prod.fst := by
  intro l
  induction l with
  | nil => intro k _; simp
  | cons p rest ih =>
    intro k h
    obtain ⟨ph, ps⟩ := p
    simp only [lookupHost] at h
    by_cases he : ph = k
    · rw [if_pos he] at h; cases h
    · rw [if_neg he] at h
      have := ih k h
      simp only [List.map_cons, List.mem_cons]
      rintro (rfl | hm)
      · exact he rfl
      · exact this hm

lemma getElem?_append_stable {α : Type} {l ext : List α} {n : Nat} {a : α}
    (h : l[n]? = some a) : (l ++ ext)[n]? = some a := by
  have hn : n < l.length := (List.getElem?_eq_some.mp h).1
  rw [List.getElem?_append_left hn]; exact h

/-- Well-formedness of the session store: the dict has at most one
entry per host, and every stored session was bootstrapped for the
host it is keyed by. -/
def storeWF (st : CrawlState) : Prop :=
  (st.hostSessions.map Prod.fst).Nodup ∧
  ∀ p ∈ st.hostSessions, st.bootLog[p.2]? = some p.1

lemma establish_of_lookup_some {st : CrawlState} {k : Nat} (u : Url)
    (h : lookupHost st.hostSessions u.host = some k) : establish_session st u = (k, st) := by
  unfold establish_session
  rw [h]

lemma establish_bootLog_extends (st : CrawlState) (u : Url) :
    ∃ ext, (establish_session st u).2.bootLog = st.bootLog ++ ext := by
  unfold establish_session
  cases lookupHost st.hostSessions u.host with
  | none => exact ⟨[u.host], rfl⟩
  | some sid => exact ⟨[], by simp⟩

lemma establish_storeWF (st : CrawlState) (u : Url) (hwf : storeWF st) :
    storeWF (establish_session st u).2 ∧
    (establish_session st u).2.bootLog[(establish_session st u).1]? = some u.host := by
  unfold establish_session
  cases hl : lookupHost st.hostSessions u.host with
  | some sid =>
    exact ⟨hwf, hwf.2 (u.host, sid) (lookupHost_mem _ _ _ hl)⟩
  | none =>
    refine ⟨⟨?_, ?_⟩, ?_⟩
    · simp only [List.map_cons]
      exact List.nodup_cons.mpr ⟨lookupHost_none _ _ hl, hwf.1⟩
    · intro p hp
      rcases List.mem_cons.mp hp with rfl | hp
      · exact List.getElem?_concat_length _ _
      · exact getElem?_append_stable (hwf.2 p hp)
    · exact List.getElem?_concat_length _ _

/-- C6 counterexample: an `http` URL and an `https` URL with the
same host have different origins `(scheme, host)` but are served by
the very same Session, because `host_sessions` is keyed by
`urlparse(url).netloc` alone. -/
theorem c6_counterexample :
    (establish_session (establish_session initState ⟨"http", "h", "/"⟩).2 ⟨"https", "h", "/"⟩).1 =
      (establish_session initState ⟨"http", "h", "/"⟩).1 ∧
    origin ⟨"http", "h", "/"⟩ ≠ origin ⟨"https", "h", "/"⟩ := by
  decide

/-- C6 amended: the session store partitions Sessions by host
(netloc) alone, not by `(scheme, host)`: establishing a session for
two URLs with the same host yields the same Session regardless of
scheme, two URLs with different hosts never share a Session, and a
well-formed store holds at most one live Session per host (the store
keys stay pairwise distinct). -/
theorem c6_sessions_keyed_by_host_only (st : CrawlState) (u1 u2 : Url) (hwf : storeWF st) :
    storeWF (establish_session st u1).2 ∧
    (u2.host = u1.host →
      (establish_session (establish_session st u1).2 u2).1 = (establish_session st u1).1) ∧
    (u2.host ≠ u1.host →
      (establish_session (establish_session st u1).2 u2).1 ≠ (establish_session st u1).1) := by
  obtain ⟨hwf1, hget1⟩ := establish_storeWF st u1 hwf
  refine ⟨hwf1, ?_, ?_⟩
  · intro hsame
    have hlook : lookupHost (establish_session st u1).2.hostSessions u1.host =
        some (establish_session st u1).1 := by
      unfold establish_session
      cases hl : lookupHost st.hostSessions u1.host with
      | some sid => simpa using hl
      | none => simp [lookupHost]
    rw [establish_of_lookup_some u2 (by rw [hsame]; exact hlook)]
  · intro hdiff heq
    obtain ⟨hwf2, hget2⟩ := establish_storeWF (establish_session st u1).2 u2 hwf1
    obtain ⟨ext, hext⟩ := establish_bootLog_extends (establish_session st u1).2 u2
    have hget1' : (establish_session (establish_session st u1).2 u2).2.bootLog[(establish_session st u1).1]? =
        some u1.host := by
      rw [hext]; exact getElem?_append_stable hget1
    rw [← heq] at hget1'
    rw [hget2] at hget1'
    exact hdiff (by injection hget1')

/-- Witness for C6 amended, from the empty store: `http://h/` and
`https://h/` share session 0; `http://g/` gets the distinct
session 1. -/
theorem c6_sessions_keyed_by_host_only_witness :
    storeWF (establish_session initState ⟨"http", "h", "/"⟩).2 ∧
    (establish_session (establish_session initState ⟨"http", "h", "/"⟩).2 ⟨"https", "h", "/"⟩).1 =
      (establish_session initState ⟨"http", "h", "/"⟩).1 ∧
    (establish_session (establish_session initState ⟨"http", "h", "/"⟩).2 ⟨"http", "g", "/"⟩).1 ≠
      (establish_session initState ⟨"http", "h", "/"⟩).1 := by
  have h1 := c6_sessions_keyed_by_host_only initState ⟨"http", "h", "/"⟩ ⟨"https", "h", "/"⟩
    ⟨List.nodup_nil, by intro p hp; cases hp⟩
  have h2 := c6_sessions_keyed_by_host_only initState ⟨"http", "h", "/"⟩ ⟨"http", "g", "/"⟩
    ⟨List.nodup_nil, by intro p hp; cases hp⟩
  exact ⟨h1.1, h1.2.1 rfl, h2.2.2 (by decide)⟩

/-- C1: evaluation of `main`'s termination handlers.  A run that
ends with an uncaught exception (`except Exception`, lines 505-508)
after having collected a ProductRecord never invokes the Result Sink
— the collected record is discarded, contradicting the claim; an
operator interrupt with an empty accumulator also skips the save
(line 501).  Only normal completion, and interrupts with a non-empty
accumulator, save exactly once with the full contents. -/
theorem c1_fatal_run_discards_records :
    mainSaves RunOutcome.fatal [⟨"m", ⟨"http", "m", "/c"⟩, ⟨"http", "m", "/p"⟩⟩] = [] ∧
    mainSaves RunOutcome.interrupted [] = [] ∧
    mainSaves RunOutcome.completed [⟨"m", ⟨"http", "m", "/c"⟩, ⟨"http", "m", "/p"⟩⟩] =
      [[⟨"m", ⟨"http", "m", "/c"⟩, ⟨"http", "m", "/p"⟩⟩]] ∧
    mainSaves RunOutcome.interrupted [⟨"m", ⟨"http", "m", "/c"⟩, ⟨"http", "m", "/p"⟩⟩] =
      [[⟨"m", ⟨"http", "m", "/c"⟩, ⟨"http", "m", "/p"⟩⟩]] := by
  decide

/-! ## Global dedup invariant (C2) -/

/-- The URL of a successful product-fetch event, if any. -/
def prodEvSucc (E : Env) : Ev → Option Url
  | .product u _ _ => if (E.prod u).isSome then some u else none
  | .page _ _ _ => none

/-- Invariant tying the accumulator, the global seen-set and the
event trace together: records and `scraped_urls` list the same URLs
in the same order, without duplicates, and those URLs are exactly
the successful product fetches of the trace. -/
def prodOK (E : Env) (st : CrawlState) : Prop :=
  st.allProducts.map (fun r => r.productUrl) = st.scrapedUrls ∧
  st.scrapedUrls.Nodup ∧
  st.events.filterMap (prodEvSucc E) = st.scrapedUrls

lemma establish_fields (st : CrawlState) (u : Url) :
    (establish_session st u).2.events = st.events ∧
    (establish_session st u).2.allProducts = st.allProducts ∧
    (establish_session st u).2.scrapedUrls = st.scrapedUrls := by
  unfold establish_session
  cases lookupHost st.hostSessions u.host <;> exact ⟨rfl, rfl, rfl⟩

lemma refresh_fields (st : CrawlState) (u : Url) :
    (refresh_session st u).2.events = st.events ∧
    (refresh_session st u).2.allProducts = st.allProducts ∧
    (refresh_session st u).2.scrapedUrls = st.scrapedUrls := by
  unfold refresh_session
  exact establish_fields _ u

lemma prodOK_of_fields_eq {E : Env} {st st' : CrawlState}
    (he : st'.events = st.events) (ha : st'.allProducts = st.allProducts)
    (hs : st'.scrapedUrls = st.scrapedUrls) (h : prodOK E st) : prodOK E st' := by
  unfold prodOK
  rw [he, ha, hs]
  exact h

lemma recordProduct_prodOK {E : Env} {st : CrawlState} (current purl : Url)
    (phost key : String) (sid : Nat) (hp : purl ∉ st.scrapedUrls) (h : prodOK E st) :
    prodOK E (recordProduct E current purl phost key sid st) := by
  obtain ⟨h1, h2, h3⟩ := h
  unfold recordProduct logEvent
  cases hf : E.prod purl with
  | some doc =>
    refine ⟨?_, ?_, ?_⟩
    · simp only [List.map_append, List.map_cons, List.map_nil, h1]
    · exact nodup_concat h2 hp
    · simp only [List.filterMap_append, h3]
      simp [prodEvSucc, hf]
  | none =>
    refine ⟨h1, h2, ?_⟩
    simp only [List.filterMap_append, h3]
    simp [prodEvSucc, hf]

lemma productStep_prodOK {E : Env} {st : CrawlState} (market : String) (current purl : Url)
    (hp : purl ∉ st.scrapedUrls) (h : prodOK E st) :
    prodOK E (productStep E market current purl st) := by
  unfold productStep
  dsimp only
  cases hlk : lookupHost st.hostSessions (if purl.host = "" then market else purl.host) with
  | some sid => exact recordProduct_prodOK current purl _ _ sid hp h
  | none =>
    obtain ⟨he, ha, hs⟩ := establish_fields st purl
    exact recordProduct_prodOK current purl _ _ _ (by rw [hs]; exact hp)
      (prodOK_of_fields_eq he ha hs h)

lemma scrapeProducts_prodOK (E : Env) (mp : Nat) (market : String) (current : Url) :
    ∀ (l : List Url) (st : CrawlState), prodOK E st →
      prodOK E (scrapeProducts E mp market current l st) := by
  intro l
  induction l with
  | nil => intro st h; exact h
  | cons purl rest ih =>
    intro st h
    simp only [scrapeProducts]
    by_cases h1 : purl ∈ st.scrapedUrls
    · rw [if_pos h1]; exact ih st h
    · rw [if_neg h1]
      by_cases h2 : mp ≠ 0 ∧ mp ≤ st.allProducts.length
      · rw [if_pos h2]; exact h
      · rw [if_neg h2]
        exact ih _ (productStep_prodOK market current purl h1 h)

lemma logEvent_prodOK_page {E : Env} {st : CrawlState} (u : Url) (k : String) (s : Nat)
    (h : prodOK E st) : prodOK E (logEvent st (Ev.page u k s)) := by
  obtain ⟨h1, h2, h3⟩ := h
  refine ⟨h1, h2, ?_⟩
  unfold logEvent
  simp only [List.filterMap_append, h3]
  simp [prodEvSucc]

lemma categoryLoop_prodOK (E : Env) (limit mp : Nat) (market : String) (sv : Nat) :
    ∀ (fuel : Nat) (queue seen : List Url) (scraped : Nat) (st : CrawlState),
      prodOK E st →
      prodOK E (categoryLoop E limit mp market sv fuel queue seen scraped st).1 := by
  intro fuel
  induction fuel with
  | zero =>
    intro queue seen scraped st h
    cases queue with
    | nil => exact h
    | cons current rest =>
      simp only [categoryLoop]
      by_cases hl : limit ≠ 0 ∧ limit ≤ scraped
      · rw [if_pos hl]; exact h
      · rw [if_neg hl]; exact h
  | succ fuel ih =>
    intro queue seen scraped st h
    cases queue with
    | nil => exact h
    | cons current rest =>
      simp only [categoryLoop]
      by_cases hl : limit ≠ 0 ∧ limit ≤ scraped
      · rw [if_pos hl]; exact h
      · rw [if_neg hl]
        by_cases hs : current ∈ seen
        · rw [if_pos hs]; exact ih rest seen scraped st h
        · rw [if_neg hs]
          have hst1 : prodOK E (logEvent st
              (Ev.page current market ((lookupHost st.hostSessions market).getD sv))) :=
            logEvent_prodOK_page _ _ _ h
          cases E.page1 current with
          | some pg =>
            exact ih _ _ _ _ (scrapeProducts_prodOK E mp market current _ _ hst1)
          | none =>
            have hrs := refresh_fields (logEvent st
              (Ev.page current market ((lookupHost st.hostSessions market).getD sv))) current
            have hst2 : prodOK E (logEvent (refresh_session (logEvent st
                (Ev.page current market ((lookupHost st.hostSessions market).getD sv))) current).2
                (Ev.page current current.host (refresh_session (logEvent st
                (Ev.page current market ((lookupHost st.hostSessions market).getD sv))) current).1)) :=
              logEvent_prodOK_page _ _ _
                (prodOK_of_fields_eq hrs.1 hrs.2.1 hrs.2.2 hst1)
            cases E.page2 current with
            | some pg =>
              exact ih _ _ _ _ (scrapeProducts_prodOK E mp market current _ _ hst2)
            | none => exact ih _ _ _ _ hst2

lemma runCrawl_prodOK (E : Env) (limit mp fuel : Nat) :
    ∀ (cats : List Url) (st : CrawlState), prodOK E st →
      prodOK E (runCrawl E limit mp fuel cats st).1 := by
  intro cats
  induction cats with
  | nil => intro st h; exact h
  | cons cat rest ih =>
    intro st h
    have h0 : prodOK E (getOrEstablish st cat).2 := by
      unfold getOrEstablish
      cases hl : lookupHost st.hostSessions cat.host with
      | some sid => exact h
      | none =>
        have hef := establish_fields st cat
        exact prodOK_of_fields_eq hef.1 hef.2.1 hef.2.2 h
    have hcl := categoryLoop_prodOK E limit mp cat.host (getOrEstablish st cat).1 fuel
      [cat] [] 0 _ h0
    simp only [runCrawl]
    by_cases hf : (categoryLoop E limit mp cat.host (getOrEstablish st cat).1 fuel
        [cat] [] 0 (getOrEstablish st cat).2).2 = false
    · rw [if_pos hf]; exact hcl
    · rw [if_neg hf]
      by_cases hm : mp ≠ 0 ∧ mp ≤ (categoryLoop E limit mp cat.host (getOrEstablish st cat).1
          fuel [cat] [] 0 (getOrEstablish st cat).2).1.allProducts.length
      · rw [if_pos hm]; exact hcl
      · rw [if_neg hm]; exact ih _ hcl

lemma filter_length_eq_count_filterMap (f : Ev → Option Url) (u : Url) :
    ∀ l : List Ev,
      (l.filter (fun e => decide (f e = some u))).length = (l.filterMap f).count u := by
  intro l
  induction l with
  | nil => rfl
  | cons a l ih =>
    cases hf : f a with
    | none => simp [List.filter_cons, List.filterMap_cons, hf, ih]
    | some v =>
      by_cases hv : v = u
      · subst hv
        simp [List.filter_cons, List.filterMap_cons, hf, ih, List.count_cons]
      · simp [List.filter_cons, List.filterMap_cons, hf, ih, List.count_cons, hv]

/-- C2: in every run no two ProductRecords in the output share a
product URL, and every product URL that yielded a record was the
subject of exactly one successful product fetch in the entire event
trace — once a URL is recorded it is in `scraped_urls` and is never
fetched again, even when several category pages link to it. -/
theorem c2_global_dedup (E : Env) (limit mp fuel : Nat) (cats : List Url) :
    ((runMain E limit mp fuel cats).1.allProducts.map (fun r => r.productUrl)).Nodup ∧
    ∀ u ∈ (runMain E limit mp fuel cats).1.allProducts.map (fun r => r.productUrl),
      ((runMain E limit mp fuel cats).1.events.filter
        (fun e => decide (prodEvSucc E e = some u))).length = 1 := by
  have h : prodOK E (runMain E limit mp fuel cats).1 :=
    runCrawl_prodOK E limit mp fuel cats initState ⟨rfl, List.nodup_nil, rfl⟩
  obtain ⟨h1, h2, h3⟩ := h
  constructor
  · rw [h1]; exact h2
  · intro u hu
    rw [h1] at hu
    rw [filter_length_eq_count_filterMap, h3]
    exact List.count_eq_one_of_mem h2 hu

/-- Crawl environment with one category page listing one product
whose fetch succeeds. -/
def envOneProduct : Env :=
  ⟨fun u => if u = ⟨"http", "m", "/c0"⟩ then some ⟨[⟨"http", "m", "/p0"⟩], []⟩ else none,
   fun _ => none,
   fun u => if u = ⟨"http", "m", "/p0"⟩ then some "doc" else none⟩

/-- Witness for C2 at `envOneProduct`: the output's product URLs are
duplicate-free and the one recorded URL was fetched exactly once. -/
theorem c2_global_dedup_witness :
    ((runMain envOneProduct 0 0 5 [⟨"http", "m", "/c0"⟩]).1.allProducts.map
      (fun r => r.productUrl)).Nodup ∧
    ((runMain envOneProduct 0 0 5 [⟨"http", "m", "/c0"⟩]).1.events.filter
      (fun e => decide (prodEvSucc envOneProduct e = some ⟨"http", "m", "/p0"⟩))).length = 1 := by
  have h := c2_global_dedup envOneProduct 0 0 5 [⟨"http", "m", "/c0"⟩]
  exact ⟨h.1, h.2 ⟨"http", "m", "/p0"⟩ (by decide)⟩

/-! ## Session isolation (C5)

`evOK` states what is true of every logged fetch: the session used
is the one bootstrapped for the store key it was looked up under,
and for product fetches that key is the product URL's own host
whenever the URL has one. -/

def evOK (bootLog : List String) : Ev → Prop
  | .page _ k s => bootLog[s]? = some k
  | .product u k s => bootLog[s]? = some k ∧ (u.host ≠ "" → k = u.host)

/-- Run-wide well-formedness: the store is well formed and every
logged fetch event used a session bootstrapped for its store key. -/
def runWF (st : CrawlState) : Prop :=
  storeWF st ∧ ∀ e ∈ st.events, evOK st.bootLog e

lemma evOK_mono {bootLog ext : List String} {e : Ev} (h : evOK bootLog e) :
    evOK (bootLog ++ ext) e := by
  cases e with
  | page u k s => exact getElem?_append_stable h
  | product u k s => exact ⟨getElem?_append_stable h.1, h.2⟩

lemma events_extend_runWF {st st' : CrawlState} {e : Ev}
    (hh : st'.hostSessions = st.hostSessions) (hb : st'.bootLog = st.bootLog)
    (he : st'.events = st.events ++ [e]) (hev : evOK st.bootLog e) (h : runWF st) :
    runWF st' := by
  constructor
  · unfold storeWF
    rw [hh, hb]
    exact h.1
  · intro e2 he2
    rw [he] at he2
    rw [hb]
    rcases List.mem_append.mp he2 with h1 | h1
    · exact h.2 e2 h1
    · simp at h1; subst h1; exact hev

lemma establish_events (st : CrawlState) (u : Url) :
    (establish_session st u).2.events = st.events :=
  (establish_fields st u).1

lemma establish_runWF (st : CrawlState) (u : Url) (h : runWF st) :
    runWF (establish_session st u).2 ∧
    (establish_session st u).2.bootLog[(establish_session st u).1]? = some u.host ∧
    ∃ ext, (establish_session st u).2.bootLog = st.bootLog ++ ext := by
  obtain ⟨hwf, hget⟩ := establish_storeWF st u h.1
  obtain ⟨ext, hext⟩ := establish_bootLog_extends st u
  refine ⟨⟨hwf, ?_⟩, hget, ext, hext⟩
  intro e he
  rw [establish_events] at he
  rw [hext]
  exact evOK_mono (h.2 e he)

lemma storeWF_filter (st : CrawlState) (p : String × Nat → Bool) (h : storeWF st) :
    storeWF { st with hostSessions := st.hostSessions.filter p } := by
  constructor
  · exact h.1.sublist ((List.filter_sublist _).map Prod.fst)
  · intro q hq
    exact h.2 q (List.mem_of_mem_filter hq)

lemma refresh_runWF (st : CrawlState) (u : Url) (h : runWF st) :
    runWF (refresh_session st u).2 ∧
    (refresh_session st u).2.bootLog[(refresh_session st u).1]? = some u.host ∧
    ∃ ext, (refresh_session st u).2.bootLog = st.bootLog ++ ext := by
  unfold refresh_session
  exact establish_runWF _ u ⟨storeWF_filter st _ h.1, h.2⟩

lemma recordProduct_store (E : Env) (current purl : Url) (phost key : String) (sid : Nat)
    (st : CrawlState) :
    (recordProduct E current purl phost key sid st).hostSessions = st.hostSessions ∧
    (recordProduct E current purl phost key sid st).bootLog = st.bootLog ∧
    (recordProduct E current purl phost key sid st).events =
      st.events ++ [Ev.product purl key sid] := by
  unfold recordProduct logEvent
  cases E.prod purl <;> exact ⟨rfl, rfl, rfl⟩

lemma recordProduct_runWF {E : Env} {st : CrawlState} (current purl : Url)
    (phost key : String) (sid : Nat) (h : runWF st)
    (hsid : st.bootLog[sid]? = some key) (hk : purl.host ≠ "" → key = purl.host) :
    runWF (recordProduct E current purl phost key sid st) ∧
    (recordProduct E current purl phost key sid st).bootLog = st.bootLog := by
  obtain ⟨hh, hb, he⟩ := recordProduct_store E current purl phost key sid st
  exact ⟨events_extend_runWF hh hb he ⟨hsid, hk⟩ h, hb⟩

lemma productStep_runWF {E : Env} {st : CrawlState} (market : String) (current purl : Url)
    (h : runWF st) :
    runWF (productStep E market current purl st) ∧
    ∃ ext, (productStep E market current purl st).bootLog = st.bootLog ++ ext := by
  unfold productStep
  dsimp only
  cases hlk : lookupHost st.hostSessions (if purl.host = "" then market else purl.host) with
  | some sid =>
    have hmem := lookupHost_mem _ _ _ hlk
    have hsid := h.1.2 _ hmem
    have hk : purl.host ≠ "" → (if purl.host = "" then market else purl.host) = purl.host := by
      intro hne; rw [if_neg hne]
    obtain ⟨hwf, hb⟩ := recordProduct_runWF current purl _ _ sid h hsid hk
    exact ⟨hwf, [], by rw [hb]; simp⟩
  | none =>
    obtain ⟨hwf2, hget, ext, hext⟩ := establish_runWF st purl h
    obtain ⟨hwf3, hb3⟩ :=
      recordProduct_runWF (E := E) current purl (if purl.host = "" then market else purl.host)
        purl.host (establish_session st purl).1 hwf2 hget (fun _ => rfl)
    exact ⟨hwf3, ext, by rw [hb3]; exact hext⟩

lemma scrapeProducts_runWF (E : Env) (mp : Nat) (market : String) (current : Url) :
    ∀ (l : List Url) (st : CrawlState), runWF st →
      runWF (scrapeProducts E mp market current l st) ∧
      ∃ ext, (scrapeProducts E mp market current l st).bootLog = st.bootLog ++ ext := by
  intro l
  induction l with
  | nil => intro st h; exact ⟨h, [], by simp [scrapeProducts]⟩
  | cons purl rest ih =>
    intro st h
    simp only [scrapeProducts]
    by_cases h1 : purl ∈ st.scrapedUrls
    · rw [if_pos h1]; exact ih st h
    · rw [if_neg h1]
      by_cases h2 : mp ≠ 0 ∧ mp ≤ st.allProducts.length
      · rw [if_pos h2]; exact ⟨h, [], by simp⟩
      · rw [if_neg h2]
        obtain ⟨hwf, ext1, hext1⟩ := productStep_runWF market current purl h
        obtain ⟨hwf2, ext2, hext2⟩ := ih _ hwf
        exact ⟨hwf2, ext1 ++ ext2, by rw [hext2, hext1, List.append_assoc]⟩

lemma logEvent_hostSessions (st : CrawlState) (e : Ev) :
    (logEvent st e).hostSessions = st.hostSessions := rfl

lemma logEvent_bootLog (st : CrawlState) (e : Ev) :
    (logEvent st e).bootLog = st.bootLog := rfl

lemma logEvent_events (st : CrawlState) (e : Ev) :
    (logEvent st e).events = st.events ++ [e] := rfl

lemma logEvent_runWF {st : CrawlState} {e : Ev} (hev : evOK st.bootLog e) (h : runWF st) :
    runWF (logEvent st e) :=
  events_extend_runWF (logEvent_hostSessions st e) (logEvent_bootLog st e)
    (logEvent_events st e) hev h

lemma categoryLoop_runWF (E : Env) (limit mp : Nat) (market : String) (sv : Nat) :
    ∀ (fuel : Nat) (queue seen : List Url) (scraped : Nat) (st : CrawlState),
      runWF st → st.bootLog[sv]? = some market →
      runWF (categoryLoop E limit mp market sv fuel queue seen scraped st).1 ∧
      ∃ ext, (categoryLoop E limit mp market sv fuel queue seen scraped st).1.bootLog =
        st.bootLog ++ ext := by
  intro fuel
  induction fuel with
  | zero =>
    intro queue seen scraped st h _
    cases queue with
    | nil => exact ⟨h, [], by simp [categoryLoop]⟩
    | cons current rest =>
      simp only [categoryLoop]
      by_cases hl : limit ≠ 0 ∧ limit ≤ scraped
      · rw [if_pos hl]; exact ⟨h, [], by simp⟩
      · rw [if_neg hl]; exact ⟨h, [], by simp⟩
  | succ fuel ih =>
    intro queue seen scraped st h hsv
    cases queue with
    | nil => exact ⟨h, [], by simp [categoryLoop]⟩
    | cons current rest =>
      simp only [categoryLoop]
      by_cases hl : limit ≠ 0 ∧ limit ≤ scraped
      · rw [if_pos hl]; exact ⟨h, [], by simp⟩
      · rw [if_neg hl]
        by_cases hs : current ∈ seen
        · rw [if_pos hs]; exact ih rest seen scraped st h hsv
        · rw [if_neg hs]
          have hpsid : st.bootLog[(lookupHost st.hostSessions market).getD sv]? =
              some market := by
            cases hlk : lookupHost st.hostSessions market with
            | some s =>
              simp only [Option.getD]
              exact h.1.2 _ (lookupHost_mem _ _ _ hlk)
            | none => simpa using hsv
          have h1 : runWF (logEvent st (Ev.page current market
              ((lookupHost st.hostSessions market).getD sv))) :=
            logEvent_runWF hpsid h
          cases E.page1 current with
          | some pg =>
            dsimp only
            obtain ⟨h2, ext1, hext1⟩ := scrapeProducts_runWF E mp market current
              pg.products.dedup _ h1
            have hsv2 : (processPage E mp market current rest (current :: seen) pg
                (logEvent st (Ev.page current market
                  ((lookupHost st.hostSessions market).getD sv)))).2.bootLog[sv]? =
                some market := by
              show (scrapeProducts E mp market current pg.products.dedup
                (logEvent st (Ev.page current market
                  ((lookupHost st.hostSessions market).getD sv)))).bootLog[sv]? = some market
              rw [hext1, logEvent_bootLog]
              exact getElem?_append_stable hsv
            obtain ⟨h3, ext2, hext2⟩ := ih
              (processPage E mp market current rest (current :: seen) pg
                (logEvent st (Ev.page current market
                  ((lookupHost st.hostSessions market).getD sv)))).1
              (current :: seen) (scraped + 1)
              (processPage E mp market current rest (current :: seen) pg
                (logEvent st (Ev.page current market
                  ((lookupHost st.hostSessions market).getD sv)))).2
              h2 hsv2
            refine ⟨h3, ext1 ++ ext2, ?_⟩
            rw [hext2]
            show (scrapeProducts E mp market current pg.products.dedup
              (logEvent st (Ev.page current market
                ((lookupHost st.hostSessions market).getD sv)))).bootLog ++ ext2 =
              st.bootLog ++ (ext1 ++ ext2)
            rw [hext1, logEvent_bootLog, List.append_assoc]
          | none =>
            dsimp only
            obtain ⟨h2, hget2, ext1, hext1⟩ := refresh_runWF _ current h1
            rw [logEvent_bootLog] at hext1
            have h3 : runWF (logEvent (refresh_session (logEvent st (Ev.page current market
                ((lookupHost st.hostSessions market).getD sv))) current).2
                (Ev.page current current.host (refresh_session (logEvent st (Ev.page current
                market ((lookupHost st.hostSessions market).getD sv))) current).1)) :=
              logEvent_runWF hget2 h2
            have hsv3 : (logEvent (refresh_session (logEvent st (Ev.page current market
                ((lookupHost st.hostSessions market).getD sv))) current).2
                (Ev.page current current.host (refresh_session (logEvent st (Ev.page current
                market ((lookupHost st.hostSessions market).getD sv))) current).1)).bootLog[sv]? =
                some market := by
              rw [logEvent_bootLog, hext1]
              exact getElem?_append_stable hsv
            cases E.page2 current with
            | some pg =>
              dsimp only
              obtain ⟨h4, ext2, hext2⟩ := scrapeProducts_runWF E mp market current
                pg.products.dedup _ h3
              have hsv4 : (processPage E mp market current rest (current :: seen) pg
                  (logEvent (refresh_session (logEvent st (Ev.page current market
                    ((lookupHost st.hostSessions market).getD sv))) current).2
                  (Ev.page current current.host (refresh_session (logEvent st (Ev.page current
                    market ((lookupHost st.hostSessions market).getD sv)))
                    current).1))).2.bootLog[sv]? = some market := by
                show (scrapeProducts E mp market current pg.products.dedup
                  (logEvent (refresh_session (logEvent st (Ev.page current market
                    ((lookupHost st.hostSessions market).getD sv))) current).2
                  (Ev.page current current.host (refresh_session (logEvent st (Ev.page current
                    market ((lookupHost st.hostSessions market).getD sv)))
                    current).1))).bootLog[sv]? = some market
                rw [hext2]
                exact getElem?_append_stable hsv3
              obtain ⟨h5, ext3, hext3⟩ := ih
                (processPage E mp market current rest (current :: seen) pg
                  (logEvent (refresh_session (logEvent st (Ev.page current market
                    ((lookupHost st.hostSessions market).getD sv))) current).2
                  (Ev.page current current.host (refresh_session (logEvent st (Ev.page current
                    market ((lookupHost st.hostSessions market).getD sv))) current).1))).1
                (current :: seen) (scraped + 1)
                (processPage E mp market current rest (current :: seen) pg
                  (logEvent (refresh_session (logEvent st (Ev.page current market
                    ((lookupHost st.hostSessions market).getD sv))) current).2
                  (Ev.page current current.host (refresh_session (logEvent st (Ev.page current
                    market ((lookupHost st.hostSessions market).getD sv))) current).1))).2
                h4 hsv4
              refine ⟨h5, ext1 ++ (ext2 ++ ext3), ?_⟩
              rw [hext3]
              show (scrapeProducts E mp market current pg.products.dedup
                (logEvent (refresh_session (logEvent st (Ev.page current market
                  ((lookupHost st.hostSessions market).getD sv))) current).2
                (Ev.page current current.host (refresh_session (logEvent st (Ev.page current
                  market ((lookupHost st.hostSessions market).getD sv)))
                  current).1))).bootLog ++ ext3 = st.bootLog ++ (ext1 ++ (ext2 ++ ext3))
              rw [hext2, logEvent_bootLog, hext1]
              simp [List.append_assoc]
            | none =>
              dsimp only
              obtain ⟨h4, ext2, hext2⟩ := ih rest (current :: seen) scraped _ h3 hsv3
              refine ⟨h4, ext1 ++ ext2, ?_⟩
              rw [hext2, logEvent_bootLog, hext1]
              simp [List.append_assoc]


lemma getOrEstablish_runWF (st : CrawlState) (u : Url) (h : runWF st) :
    runWF (getOrEstablish st u).2 ∧
    (getOrEstablish st u).2.bootLog[(getOrEstablish st u).1]? = some u.host := by
  unfold getOrEstablish
  cases hlk : lookupHost st.hostSessions u.host with
  | some sid => exact ⟨h, h.1.2 _ (lookupHost_mem _ _ _ hlk)⟩
  | none =>
    obtain ⟨hwf, hget, _⟩ := establish_runWF st u h
    exact ⟨hwf, hget⟩

lemma runCrawl_runWF (E : Env) (limit mp fuel : Nat) :
    ∀ (cats : List Url) (st : CrawlState), runWF st →
      runWF (runCrawl E limit mp fuel cats st).1 := by
  intro cats
  induction cats with
  | nil => intro st h; exact h
  | cons cat rest ih =>
    intro st h
    obtain ⟨h0, hget⟩ := getOrEstablish_runWF st cat h
    obtain ⟨hcl, _⟩ := categoryLoop_runWF E limit mp cat.host (getOrEstablish st cat).1
      fuel [cat] [] 0 _ h0 hget
    simp only [runCrawl]
    by_cases hf : (categoryLoop E limit mp cat.host (getOrEstablish st cat).1 fuel
        [cat] [] 0 (getOrEstablish st cat).2).2 = false
    · rw [if_pos hf]; exact hcl
    · rw [if_neg hf]
      by_cases hm : mp ≠ 0 ∧ mp ≤ (categoryLoop E limit mp cat.host (getOrEstablish st cat).1
          fuel [cat] [] 0 (getOrEstablish st cat).2).1.allProducts.length
      · rw [if_pos hm]; exact hcl
      · rw [if_neg hm]; exact ih _ hcl

/-- Crawl environment whose one category page (host `A`) links to a
pagination page on a different host `B` whose fetch fails. -/
def envCrossHost : Env :=
  ⟨fun u => if u = ⟨"http", "A", "/cat"⟩ then some ⟨[], [⟨"http", "B", "/2"⟩]⟩ else none,
   fun _ => none,
   fun _ => none⟩

/-- C5 counterexample: in the `envCrossHost` run the pagination page
`http://B/2` is first fetched with session 0, which was bootstrapped
for host `A` (the category's host) — page fetches inside a category
walk always use `host_sessions.get(market_name)`, line 433, keyed by
the category's host, not the page's own host.  So a fetch to origin
B uses a Session bootstrapped for origin A. -/
theorem c5_counterexample :
    ¬ (∀ e ∈ (runMain envCrossHost 0 0 5 [⟨"http", "A", "/cat"⟩]).1.events,
        (runMain envCrossHost 0 0 5 [⟨"http", "A", "/cat"⟩]).1.bootLog[e.sid]? =
          some e.url.host) := by
  decide

/-- C5 amended: every fetch uses the session bootstrapped for the
store key it was looked up under; for product fetches that key is
the product URL's own host whenever the URL has one (so product
fetches are origin-isolated up to scheme), but for page fetches the
key is the category's host, so a pagination page on a different host
is fetched with the category host's session; only the post-failure
refresh retry uses a session established for the page's own host. -/
theorem c5_session_matches_lookup_key (E : Env) (limit mp fuel : Nat) (cats : List Url) :
    ∀ e ∈ (runMain E limit mp fuel cats).1.events,
      evOK (runMain E limit mp fuel cats).1.bootLog e := by
  have h : runWF (runMain E limit mp fuel cats).1 :=
    runCrawl_runWF E limit mp fuel cats initState
      ⟨⟨List.nodup_nil, fun p hp => absurd hp (List.not_mem_nil p)⟩,
       fun e he => absurd he (List.not_mem_nil e)⟩
  exact h.2

/-- Witness for C5 amended at the `envCrossHost` run: the cross-host
page fetch event used session 0 under lookup key `A`. -/
theorem c5_session_matches_lookup_key_witness :
    evOK (runMain envCrossHost 0 0 5 [⟨"http", "A", "/cat"⟩]).1.bootLog
      (Ev.page ⟨"http", "B", "/2"⟩ "A" 0) :=
  c5_session_matches_lookup_key envCrossHost 0 0 5 [⟨"http", "A", "/cat"⟩]
    (Ev.page ⟨"http", "B", "/2"⟩ "A" 0) (by decide)

end MedRepro
